import Mathlib

/-!
Verification of the load-generation core of `main.py`
(GenAI_Performance_Test): ramp scheduler, step runner, wave dispatcher
and statistics aggregation.

Shallow embedding conventions:
* Python `int` is `ℤ`; Python `float` latencies and durations are modelled
  as exact rationals `ℚ` (the code does exact-looking arithmetic: sums,
  divisions, `math.ceil`, `numpy.percentile` with linear interpolation).
* Code that can raise a Python exception is modelled with `Except PyError`
  (`ZeroDivisionError` from `//`-derived division, `ValueError` from
  `range(..., 0)`) or, for per-request HTTP failures, `Except ReqError`.
* `asyncio.gather` without `return_exceptions=True` propagates the first
  exception; it is modelled by `gatherResults`, which returns the first
  `.error` of the list, or the list of all values when every entry is `.ok`.
-/

/-- Exceptions that the scheduler-side code of `main.py` can raise:
`ZeroDivisionError` from `(max_requests - start_requests) / total_steps`
when `total_steps = 0`, and `ValueError` from `range(a, b, 0)`. -/
inductive PyError where
  | zeroDivisionError : PyError
  | valueErrorZeroStep : PyError
deriving DecidableEq, Repr

/-- `math.ceil(a / b)` for integers `a`, `b` (`b ≠ 0`): the exact ceiling of
the rational `a / b`, as computed by `main.py` line 16, written with Python
floor division (`Int.fdiv`) so that it evaluates by kernel reduction. -/
def ceilIntDiv (a b : ℤ) : ℤ := -((-a).fdiv b)

/-- For a positive divisor, `ceilIntDiv` is the mathematical ceiling of the
rational quotient, i.e. exactly `math.ceil((a : float) / b)` without
floating-point rounding. -/
lemma ceilIntDiv_eq_ceil (a : ℤ) {b : ℤ} (hb : 0 < b) :
    ceilIntDiv a b = ⌈(a : ℚ) / (b : ℚ)⌉ := by
  have hbn : ((b.toNat : ℕ) : ℤ) = b := Int.toNat_of_nonneg hb.le
  have hbq : ((b.toNat : ℕ) : ℚ) = (b : ℚ) := by exact_mod_cast congrArg Int.cast hbn
  have hfloor : ⌊((-a : ℤ) : ℚ) / ((b.toNat : ℕ) : ℚ)⌋ = (-a) / ((b.toNat : ℕ) : ℤ) :=
    Rat.floor_intCast_div_natCast (-a) b.toNat
  have hneg : -((a : ℚ) / (b : ℚ)) = ((-a : ℤ) : ℚ) / ((b.toNat : ℕ) : ℚ) := by
    rw [hbq]; push_cast; ring
  have : ⌈(a : ℚ) / (b : ℚ)⌉ = -⌊-((a : ℚ) / (b : ℚ))⌋ := by
    rw [Int.floor_neg, neg_neg]
  rw [this, hneg, hfloor, hbn, ceilIntDiv, Int.fdiv_eq_ediv _ hb.le]

/-- `calculate_ramp_up_step(start_requests, max_requests, duration)`
(`main.py` lines 13–17): `total_steps = duration // 5` (Python floor
division, `Int.fdiv`), then `math.ceil((max_requests - start_requests) /
total_steps)`, raising `ZeroDivisionError` when `total_steps = 0`. -/
def calculate_ramp_up_step (start_requests max_requests duration : ℤ) :
    Except PyError ℤ :=
  let total_steps := duration.fdiv 5
  if total_steps = 0 then .error .zeroDivisionError
  else .ok (ceilIntDiv (max_requests - start_requests) total_steps)

/-- Python `range(start, stop, step)` as a list, raising `ValueError` when
`step = 0` (CPython semantics: for positive `step` the elements are
`start, start+step, …` while `< stop`; for negative `step` while
`> stop`). -/
def pyRange (start stop step : ℤ) : Except PyError (List ℤ) :=
  if step = 0 then .error .valueErrorZeroStep
  else
    let n : ℕ :=
      if 0 < step then ((stop - start + step - 1).fdiv step).toNat
      else ((start - stop - step - 1).fdiv (-step)).toNat
    .ok ((List.range n).map (fun i : ℕ => start + step * (i : ℤ)))

/-- The sequence of concurrency levels executed by `main`'s step loop
(`main.py` line 79): `range(start_requests, max_requests + 1,
ramp_up_step)`, after the stride computation of line 62. -/
def stepPlan (start_requests max_requests duration : ℤ) :
    Except PyError (List ℤ) :=
  match calculate_ramp_up_step start_requests max_requests duration with
  | .error e => .error e
  | .ok stride => pyRange start_requests (max_requests + 1) stride

/-- A per-request HTTP failure: `client.post` in `send_request`
(`main.py` lines 20–26) can raise (connection refused, timeout, …);
`send_request` has no `try`/`except`, so the exception escapes. -/
inductive ReqError where
  | httpError : ReqError
deriving DecidableEq, Repr

/-- The outcome of one request executor (`send_request`): either a measured
latency in milliseconds, or an uncaught exception. -/
abbrev ReqOutcome := Except ReqError ℚ

/-- `asyncio.gather(*tasks)` without `return_exceptions=True` (`main.py`
line 36): if every task succeeds it returns the list of all results; if any
task raises, the first exception propagates out of `gather` and no result
list is produced. -/
def gatherResults {α : Type} : List (Except ReqError α) → Except ReqError (List α)
  | [] => .ok []
  | .ok x :: rest => (gatherResults rest).map (x :: ·)
  | .error e :: _ => .error e

/-- One wave dispatch (`main.py` lines 35–36): launch
`len(outcomes) = num_requests` executors and gather them. The wave yields a
latency list only when every request succeeded; any failure propagates. -/
def runWave (outcomes : List ReqOutcome) : Except ReqError (List ℚ) :=
  gatherResults outcomes

/-- One wave of the step-runner loop, as the environment resolves it: the
wave's wall-clock duration in seconds (the slowest request's completion)
and the latencies it produced, one per request. -/
structure Wave where
  dur : ℚ
  lats : List ℚ
deriving DecidableEq, Repr

/-- Total wall-clock duration of a list of waves. -/
def totalDur (waves : List Wave) : ℚ := (waves.map Wave.dur).sum

/-- The `while` loop of `ramp_up_requests` (`main.py` lines 34–37):
`elapsed` is the time since the step's start; while `elapsed < duration`,
run one full wave, append all its latencies, advance the clock by the
wave's duration, and re-check. `waves` is the (finite, sufficiently long)
schedule of waves the environment would serve. Returns the accumulated
latencies and the elapsed time at return. -/
def rampLoop (duration : ℚ) : ℚ → List Wave → List ℚ × ℚ
  | elapsed, [] => ([], elapsed)
  | elapsed, w :: rest =>
    if elapsed < duration then
      let r := rampLoop duration (elapsed + w.dur) rest
      (w.lats ++ r.1, r.2)
    else ([], elapsed)

/-- `ramp_up_requests(url, payload, num_requests, duration)` (`main.py`
lines 29–38): the loop starts with the monotonic clock at the recorded
start time, i.e. `elapsed = 0`. -/
def ramp_up_requests (duration : ℚ) (waves : List Wave) : List ℚ × ℚ :=
  rampLoop duration 0 waves

/-- `statistics.mean` (`main.py` line 84): the exact arithmetic mean;
Python raises on an empty list, but the call is guarded by
`if process_times:` so the `0` junk value on `[]` is never reached. -/
def pyMean (xs : List ℚ) : ℚ := xs.sum / (xs.length : ℚ)

/-- Insertion of one element into a sorted list (ascending). -/
def insertSorted (x : ℚ) : List ℚ → List ℚ
  | [] => [x]
  | y :: ys => if x ≤ y then x :: y :: ys else y :: insertSorted x ys

/-- Insertion sort, ascending — the sorting `numpy.percentile` performs
internally. -/
def sortAsc : List ℚ → List ℚ
  | [] => []
  | x :: xs => insertSorted x (sortAsc xs)

/-- `numpy.percentile(times, q)` with the default linear interpolation
(`main.py` line 111): on the ascending sort `s` of the samples, the virtual
rank is `h = (n - 1) * q / 100`; the result interpolates linearly between
`s[⌊h⌋]` and `s[⌊h⌋ + 1]`. -/
def np_percentile (xs : List ℚ) (q : ℚ) : ℚ :=
  let s := sortAsc xs
  let n := s.length
  let h : ℚ := (n - 1 : ℚ) * q / 100
  let i : ℕ := (⌊h⌋).toNat
  let lo := s.getD i 0
  let hi := s.getD (i + 1) lo
  lo + (h - (i : ℚ)) * (hi - lo)

/-- Python `max(times)` (`main.py` line 121); Python raises on an empty
list, but every `times` stored by `main` is non-empty. -/
def pyMax (xs : List ℚ) : ℚ := xs.foldl max (xs.headD 0)

/-- `len(times) / duration_per_step` (`main.py` line 141): throughput uses
the nominal window length, not the actual elapsed time. -/
def throughput (xs : List ℚ) (duration_per_step : ℚ) : ℚ :=
  (xs.length : ℚ) / duration_per_step

/-- The statistics derived from one step's latency multiset
(`main.py` lines 84, 111, 121, 141): mean, 95th percentile, max,
throughput — the StepSummary of the spec. -/
def summarize (xs : List ℚ) (duration_per_step : ℚ) : ℚ × ℚ × ℚ × ℚ :=
  (pyMean xs, np_percentile xs 95, pyMax xs, throughput xs duration_per_step)

/-- The collection loop of `main` (`main.py` lines 79–88) viewed on one
step's data `(num_requests, process_times)`: under `if process_times:` the
step's mean, concurrency level and raw latencies are appended to the three
series; an empty step appends nothing. Returns
`(average_response_times, concurrent_users, all_process_times)`. -/
def collectSeries : List (ℤ × List ℚ) → List ℚ × List ℤ × List (List ℚ)
  | [] => ([], [], [])
  | (n, ts) :: rest =>
    let r := collectSeries rest
    if ts.isEmpty then r
    else (pyMean ts :: r.1, n :: r.2.1, ts :: r.2.2)


/-- Characterization of the step-runner loop, provided the wave schedule is
long enough to reach the time bound: the loop runs some prefix of `k` whole
waves, returns exactly their latencies (never a truncated wave), and the
clock at return is the start time plus those `k` full wave durations, which
meets or passes `duration`; at least one wave runs whenever the loop is
entered before the deadline. -/
lemma rampLoop_spec (duration : ℚ) :
    ∀ (waves : List Wave) (elapsed : ℚ), duration ≤ elapsed + totalDur waves →
    ∃ k, k ≤ waves.length ∧
      rampLoop duration elapsed waves =
        (((waves.take k).map Wave.lats).flatten, elapsed + totalDur (waves.take k)) ∧
      duration ≤ elapsed + totalDur (waves.take k) ∧
      (elapsed < duration → 1 ≤ k) := by
  intro waves
  induction waves with
  | nil =>
    intro elapsed h
    refine ⟨0, by simp, ?_, ?_, ?_⟩
    · simp [rampLoop, totalDur]
    · simpa [totalDur] using h
    · intro hlt
      exact absurd hlt (not_lt.mpr (by simpa [totalDur] using h))
  | cons w rest ih =>
    intro elapsed h
    by_cases hlt : elapsed < duration
    · have h' : duration ≤ (elapsed + w.dur) + totalDur rest := by
        have : totalDur (w :: rest) = w.dur + totalDur rest := by
          simp [totalDur]
        rw [this] at h; linarith
      obtain ⟨k, hk, heq, hge, _⟩ := ih (elapsed + w.dur) h'
      refine ⟨k + 1, by simpa using Nat.succ_le_succ hk, ?_, ?_, ?_⟩
      · simp only [rampLoop, if_pos hlt, heq, List.take_succ_cons, List.map_cons,
          List.flatten_cons]
        refine Prod.ext rfl ?_
        simp [totalDur]; ring
      · have : totalDur (w :: rest.take k) = w.dur + totalDur (rest.take k) := by
          simp [totalDur]
        simp only [List.take_succ_cons, this]
        linarith
      · intro _; exact Nat.le_add_left 1 k
    · refine ⟨0, by simp, ?_, ?_, ?_⟩
      · simp [rampLoop, if_neg hlt, totalDur]
      · simpa [totalDur] using not_lt.mp hlt
      · intro hc; exact absurd hc hlt

/-- If every wave of a list carries exactly `n` latencies, the flattened
latency list has `length * n` entries. -/
lemma flatten_lats_length (n : ℕ) :
    ∀ l : List Wave, (∀ w ∈ l, w.lats.length = n) →
      ((l.map Wave.lats).flatten).length = l.length * n := by
  intro l
  induction l with
  | nil => intro _; simp
  | cons w rest ih =>
    intro h
    have hw : w.lats.length = n := h w (by simp)
    have hrest : ∀ x ∈ rest, x.lats.length = n := fun x hx => h x (by simp [hx])
    simp [ih hrest, hw, Nat.succ_mul, Nat.add_comm]

/-- `ramp_up_requests` run from a cold clock: with a positive window and a
sufficient wave schedule, some prefix of `k ≥ 1` whole waves runs, exactly
their latencies are returned, and the elapsed time at return is their total
duration, which meets or passes the window. -/
lemma ramp_run_spec (duration : ℚ) (waves : List Wave)
    (hd : 0 < duration) (hw : duration ≤ totalDur waves) :
    ∃ k, 1 ≤ k ∧ k ≤ waves.length ∧
      ramp_up_requests duration waves =
        (((waves.take k).map Wave.lats).flatten, totalDur (waves.take k)) ∧
      duration ≤ totalDur (waves.take k) := by
  obtain ⟨k, hk, heq, hge, hone⟩ :=
    rampLoop_spec duration waves 0 (by simpa using hw)
  exact ⟨k, hone hd, hk, by simpa [ramp_up_requests] using heq, by simpa using hge⟩

/-- C7 (confirmed): the step runner's window is a minimum, never a
preemption deadline — whenever the wave schedule can reach the bound, the
loop returns the latencies of `k` *complete* waves (a wave in flight when
the window expires is still finished and fully collected), and the elapsed
time at return is the sum of those full wave durations, which is at least
`windowSeconds`. -/
theorem step_window_is_minimum (duration : ℚ) (waves : List Wave)
    (hd : 0 < duration) (hw : duration ≤ totalDur waves) :
    ∃ k, 1 ≤ k ∧ k ≤ waves.length ∧
      ramp_up_requests duration waves =
        (((waves.take k).map Wave.lats).flatten, totalDur (waves.take k)) ∧
      duration ≤ totalDur (waves.take k) :=
  ramp_run_spec duration waves hd hw

/-- C7 witness: a window of 5 seconds with a single wave lasting 7 seconds —
the wave completes fully, its latencies are returned, and the elapsed time
at return is 7 ≥ 5. -/
theorem step_window_is_minimum_witness :
    ∃ k, 1 ≤ k ∧ k ≤ [(⟨7, [1, 2]⟩ : Wave)].length ∧
      ramp_up_requests 5 [(⟨7, [1, 2]⟩ : Wave)] =
        ((([(⟨7, [1, 2]⟩ : Wave)].take k).map Wave.lats).flatten,
          totalDur ([(⟨7, [1, 2]⟩ : Wave)].take k)) ∧
      (5 : ℚ) ≤ totalDur ([(⟨7, [1, 2]⟩ : Wave)].take k) :=
  step_window_is_minimum 5 [⟨7, [1, 2]⟩] (by norm_num)
    (by norm_num [totalDur])

/-- C10 (confirmed): with `num_requests ≥ 1`, a positive window, and every
request succeeding (each wave yields exactly `num_requests` samples), the
step runner's latency list is non-empty and of length an exact positive
multiple of `num_requests`: the time check precedes the first wave and the
clock starts at 0 < duration, so at least one full wave runs. -/
theorem step_samples_positive_multiple (n : ℕ) (duration : ℚ) (waves : List Wave)
    (hn : 1 ≤ n) (hd : 0 < duration) (hw : duration ≤ totalDur waves)
    (hlen : ∀ w ∈ waves, w.lats.length = n) :
    ∃ k, 1 ≤ k ∧ (ramp_up_requests duration waves).1.length = k * n ∧
      (ramp_up_requests duration waves).1 ≠ [] := by
  obtain ⟨k, hk1, hklen, heq, _⟩ := ramp_run_spec duration waves hd hw
  have hlen' : ∀ w ∈ waves.take k, w.lats.length = n :=
    fun w hwmem => hlen w (List.mem_of_mem_take hwmem)
  have hflat : (((waves.take k).map Wave.lats).flatten).length = (waves.take k).length * n :=
    flatten_lats_length n (waves.take k) hlen'
  have htk : (waves.take k).length = k := by
    rw [List.length_take]; exact Nat.min_eq_left hklen
  have hlenk : (ramp_up_requests duration waves).1.length = k * n := by
    rw [heq]; rw [hflat, htk]
  refine ⟨k, hk1, hlenk, ?_⟩
  have hpos : 0 < (ramp_up_requests duration waves).1.length := by
    rw [hlenk]; exact Nat.mul_pos hk1 hn
  exact List.ne_nil_of_length_pos hpos

/-- C10 witness: two requests per wave, a 5-second window, a single 7-second
wave of two successful samples — the step returns a non-empty list of
`1 * 2` latencies. -/
theorem step_samples_positive_multiple_witness :
    ∃ k, 1 ≤ k ∧
      (ramp_up_requests 5 [(⟨7, [1, 2]⟩ : Wave)]).1.length = k * 2 ∧
      (ramp_up_requests 5 [(⟨7, [1, 2]⟩ : Wave)]).1 ≠ [] :=
  step_samples_positive_multiple 2 5 [⟨7, [1, 2]⟩] (by norm_num) (by norm_num)
    (by norm_num [totalDur]) (by intro w hw; simp at hw; simp [hw])

/-- C3 counterexample: the claim is false — a wave of three requests whose
middle request fails does not record a failed sample and does not keep the
other two latencies; `asyncio.gather` propagates the exception, aborting
the wave with nothing collected. -/
theorem wave_failure_aborts_cex :
    runWave [Except.ok 10, Except.error ReqError.httpError, Except.ok 30] =
      Except.error ReqError.httpError := rfl

/-- C3 (corrected): a failing request aborts the whole wave — whenever any
outcome of the wave is an exception, `runWave` propagates an exception and
returns no latency list at all (neither a failed `LatencySample` nor the
surviving latencies are collected). -/
theorem wave_failure_propagates (outcomes : List ReqOutcome) (e : ReqError)
    (h : Except.error e ∈ outcomes) :
    ∃ e', runWave outcomes = Except.error e' := by
  induction outcomes with
  | nil => simp at h
  | cons o rest ih =>
    match o with
    | .error e0 => exact ⟨e0, rfl⟩
    | .ok x =>
      have h' : Except.error e ∈ rest := by
        rcases List.mem_cons.mp h with h0 | h0
        · exact absurd h0 (by simp)
        · exact h0
      obtain ⟨e', he'⟩ := ih h'
      refine ⟨e', ?_⟩
      simp only [runWave, gatherResults] at he' ⊢
      rw [he']; rfl

/-- C3 witness: a concrete wave with one failure among successes aborts with
an exception. -/
theorem wave_failure_propagates_witness :
    ∃ e', runWave [Except.ok 7, Except.error ReqError.httpError] = Except.error e' :=
  wave_failure_propagates [Except.ok 7, Except.error ReqError.httpError]
    ReqError.httpError (by simp)

/-- C8 counterexample: the claim is false — a wave of `N = 2` executors
where one fails returns no latency list of length 2: the exception
propagates instead. -/
theorem wave_length_cex :
    runWave [Except.ok 10, Except.error ReqError.httpError] =
      Except.error ReqError.httpError ∧
    ([Except.ok 10, Except.error ReqError.httpError] : List ReqOutcome).length = 2 :=
  ⟨rfl, rfl⟩

/-- C8 (corrected): when all `N` requests of a wave succeed, the wave
dispatch launches exactly `N` executors and returns their `N` latencies
(the gather barrier completes them all); when any request fails, no list is
returned — the exception propagates (see the counterexample). -/
theorem wave_returns_all_on_success (xs : List ℚ) :
    runWave (xs.map Except.ok) = Except.ok xs ∧
    (xs.map (Except.ok : ℚ → ReqOutcome)).length = xs.length := by
  constructor
  · induction xs with
    | nil => rfl
    | cons x rest ih =>
      simp only [runWave, List.map_cons, gatherResults] at ih ⊢
      rw [ih]; rfl
  · exact List.length_map xs Except.ok

/-- C9 (confirmed): the statistics aggregation is a pure, deterministic
function of the latency list and window: equal inputs give identical
mean, 95th percentile, max and throughput. -/
theorem summarize_deterministic (xs ys : List ℚ) (w v : ℚ)
    (hxy : xs = ys) (hwv : w = v) : summarize xs w = summarize ys v := by
  rw [hxy, hwv]

/-- C9 witness: two calls on the same concrete latency list give identical
summaries. -/
theorem summarize_deterministic_witness :
    summarize [10, 20] 5 = summarize [10, 20] 5 :=
  summarize_deterministic [10, 20] [10, 20] 5 5 rfl rfl

/-- C5 (confirmed): on the fixed sample set [10, 20, 30, 40, 100] ms over
the 5-second nominal window, the aggregation yields mean 40, linearly
interpolated 95th percentile 88, max 100, and throughput 1 request/second.
-/
theorem summarize_fixed_samples :
    summarize [10, 20, 30, 40, 100] 5 = (40, 88, 100, 1) := by
  have h3 : Int.toNat 3 = 3 := rfl
  norm_num [summarize, pyMean, np_percentile, sortAsc, insertSorted, pyMax,
    throughput, h3]

/-- C6 (confirmed): `main`'s collection loop keeps exactly the steps whose
latency list is non-empty — the mean series, the concurrency series and the
raw-latency series are the filtered projections, so an empty step
contributes no entry (no zero, no placeholder) to any of the three. -/
theorem collect_excludes_empty_steps (steps : List (ℤ × List ℚ)) :
    collectSeries steps =
      ((steps.filter (fun p => !p.2.isEmpty)).map (fun p => pyMean p.2),
       (steps.filter (fun p => !p.2.isEmpty)).map Prod.fst,
       (steps.filter (fun p => !p.2.isEmpty)).map Prod.snd) := by
  induction steps with
  | nil => rfl
  | cons p rest ih =>
    obtain ⟨n, ts⟩ := p
    by_cases hts : ts.isEmpty
    · simp [collectSeries, List.filter, hts, ih]
    · simp [collectSeries, List.filter, hts, ih]

/-- C2 counterexample: the claim is false on the code — with
`start = max = 1` and `duration = 5` the code computes stride 0 (the
claimed "minimum 1" does not exist), and with `duration = 3` the claimed
minimum-1 clamp on `totalSteps` does not exist either: the division by
`totalSteps = 0` raises `ZeroDivisionError` instead of computing
`ceil((max-start)/1)`. -/
theorem stride_formula_cex :
    calculate_ramp_up_step 1 1 5 = .ok 0 ∧ ¬((1 : ℤ) ≤ 0) ∧
    calculate_ramp_up_step 1 10 3 = .error .zeroDivisionError :=
  ⟨rfl, by decide, rfl⟩

/-- C2 (corrected): for `duration ≥ 5` — where the claimed minimum-1 clamp
on `totalSteps` is vacuous — the stride is exactly
`ceil((max - start) / (duration // 5))` with no further minimum applied,
and it is at least 1 exactly when `start < max`. -/
theorem stride_formula (s m d : ℤ) (hd : 5 ≤ d) :
    calculate_ramp_up_step s m d =
      .ok ⌈((m - s : ℤ) : ℚ) / ((d.fdiv 5 : ℤ) : ℚ)⌉ ∧
    (s < m → 1 ≤ (⌈((m - s : ℤ) : ℚ) / ((d.fdiv 5 : ℤ) : ℚ)⌉ : ℤ)) := by
  have hts5 : d.fdiv 5 = d / 5 := Int.fdiv_eq_ediv _ (by norm_num)
  have hts1 : 1 ≤ d.fdiv 5 := by
    rw [hts5]
    exact (Int.le_ediv_iff_mul_le (by norm_num)).mpr (by linarith)
  have hts0 : 0 < d.fdiv 5 := by omega
  constructor
  · simp only [calculate_ramp_up_step]
    rw [if_neg (by omega), ceilIntDiv_eq_ceil _ hts0]
  · intro hsm
    have hx : (0 : ℚ) < ((m - s : ℤ) : ℚ) / ((d.fdiv 5 : ℤ) : ℚ) := by
      apply div_pos
      · exact_mod_cast (by omega : (0 : ℤ) < m - s)
      · exact_mod_cast hts0
    exact Int.ceil_pos.mpr hx

/-- C2 witness: start 1, max 10, duration 10 — the stride is
`ceil(9 / 2) = 5 ≥ 1`. -/
theorem stride_formula_witness :
    calculate_ramp_up_step 1 10 10 =
      .ok ⌈((10 - 1 : ℤ) : ℚ) / (((10 : ℤ).fdiv 5 : ℤ) : ℚ)⌉ ∧
    ((1 : ℤ) < 10 → 1 ≤ (⌈((10 - 1 : ℤ) : ℚ) / (((10 : ℤ).fdiv 5 : ℤ) : ℚ)⌉ : ℤ)) :=
  stride_formula 1 10 10 (by norm_num)

/-- C4 counterexample: the claim is false on the code — the configuration
`start = 10 > max = 5` (duration 10) is not rejected: no validation exists,
the stride comes out as `ceil(-5/2) = -2`, and the scheduler happily runs a
*decreasing* sequence of steps `[10, 8]`. -/
theorem config_not_rejected_cex :
    stepPlan 10 5 10 = .ok [10, 8] ∧ ([10, 8] : List ℤ) ≠ [] :=
  ⟨rfl, by decide⟩

/-- C4 (corrected): the code performs no configuration validation at all.
A duration in `[0, 5)` (in particular the non-positive duration 0) makes
`calculate_ramp_up_step` divide by `totalSteps = 0`: the run dies with an
uncaught `ZeroDivisionError` — a runtime failure, not a configuration
error; and `max < start` is not rejected either (see the counterexample,
where the scheduler runs a decreasing plan). -/
theorem bad_duration_runtime_failure (s m d : ℤ) (h0 : 0 ≤ d) (h5 : d < 5) :
    stepPlan s m d = .error .zeroDivisionError := by
  have hts : d.fdiv 5 = 0 := by
    rw [Int.fdiv_eq_ediv _ (by norm_num)]
    exact Int.ediv_eq_zero_of_lt h0 h5
  simp [stepPlan, calculate_ramp_up_step, hts]

/-- C4 witness: duration 0 (a non-positive duration) with any
start/max (here 1 and 10) raises `ZeroDivisionError` instead of being
rejected as a configuration error. -/
theorem bad_duration_runtime_failure_witness :
    stepPlan 1 10 0 = .error .zeroDivisionError :=
  bad_duration_runtime_failure 1 10 0 (by decide) (by decide)

/-- C1 counterexample: the claim is false on the code — with start 1,
max 10, duration 10 the plan is `[1, 6]` whose final element 6 is *below*
`maxConcurrency = 10` (Python's `range(start, max+1, stride)` stops before
exceeding `max` and may stop short of it); moreover the "valid" config
start = max = 1, duration 5 produces no sequence at all: stride 0 makes
`range` raise `ValueError`. -/
theorem stepPlan_reaches_max_cex :
    stepPlan 1 10 10 = .ok [1, 6] ∧ ((6 : ℤ) < 10) ∧
    stepPlan 1 1 5 = .error .valueErrorZeroStep :=
  ⟨rfl, by decide, rfl⟩

/-- C1 (corrected): for `start < max` and `duration ≥ 5` (the configurations
on which the loop produces a sequence at all), the plan is strictly
increasing and starts at `startConcurrency`, but it is capped at
`maxConcurrency` from *below*: every element is ≤ max and the final element
is merely within one stride of max (`max < last + stride`) — it need not
reach or pass `maxConcurrency`. -/
theorem stepPlan_increasing_capped (s m d : ℤ) (hs : s < m) (hd : 5 ≤ d) :
    ∃ stride L, calculate_ramp_up_step s m d = .ok stride ∧ 1 ≤ stride ∧
      stepPlan s m d = .ok L ∧ L.head? = some s ∧ L.Pairwise (· < ·) ∧
      (∀ x ∈ L, x ≤ m) ∧ ∃ last, L.getLast? = some last ∧ m < last + stride := by
  have hts1 : 1 ≤ d.fdiv 5 := by
    rw [Int.fdiv_eq_ediv _ (by norm_num)]
    exact (Int.le_ediv_iff_mul_le (by norm_num)).mpr (by linarith)
  have hts0 : (0 : ℤ) < d.fdiv 5 := by omega
  obtain ⟨S, hS⟩ : ∃ S, ceilIntDiv (m - s) (d.fdiv 5) = S := ⟨_, rfl⟩
  have hSval : S = -((s - m) / (d.fdiv 5)) := by
    rw [← hS, ceilIntDiv, show -(m - s) = s - m from by ring,
      Int.fdiv_eq_ediv _ hts0.le]
  have hneg : (s - m) / (d.fdiv 5) < 0 := Int.ediv_neg' (by omega) hts0
  have hS1 : 1 ≤ S := by omega
  have hS0 : (0 : ℤ) < S := by omega
  have hcalc : calculate_ramp_up_step s m d = .ok S := by
    simp only [calculate_ramp_up_step]
    rw [if_neg (show ¬d.fdiv 5 = 0 from by omega), hS]
  obtain ⟨q, hq⟩ : ∃ q, (m - s) / S = q := ⟨_, rfl⟩
  have hq0 : 0 ≤ q := hq ▸ Int.ediv_nonneg (by omega) hS0.le
  have hcount : (m + 1 - s + S - 1).fdiv S = q + 1 := by
    rw [Int.fdiv_eq_ediv _ hS0.le,
      show m + 1 - s + S - 1 = (m - s) + 1 * S from by ring,
      Int.add_mul_ediv_right _ _ (by omega : S ≠ 0), hq]
  have hqlt : m - s < (q + 1) * S := by
    have h := Int.lt_ediv_add_one_mul_self (m - s) hS0
    rwa [hq] at h
  have hqle : q * S ≤ m - s := by
    have h := Int.ediv_mul_le (m - s) (by omega : S ≠ 0)
    rwa [hq] at h
  have hplan : stepPlan s m d =
      .ok ((List.range (q.toNat + 1)).map (fun i : ℕ => s + S * (i : ℤ))) := by
    simp only [stepPlan, hcalc, pyRange]
    rw [if_neg (by omega : ¬S = 0)]
    have hcnt : ((m + 1 - s + S - 1).fdiv S).toNat = q.toNat + 1 := by
      rw [hcount]; omega
    rw [if_pos hS0, hcnt]
  refine ⟨S, (List.range (q.toNat + 1)).map (fun i : ℕ => s + S * (i : ℤ)),
    hcalc, hS1, hplan, ?_, ?_, ?_, ?_⟩
  · rw [List.range_succ_eq_map]
    simp
  · refine List.Pairwise.map _ ?_ (List.pairwise_lt_range (q.toNat + 1))
    intro a b hab
    have hab' : (a : ℤ) < (b : ℤ) := by exact_mod_cast hab
    have := mul_lt_mul_of_pos_left hab' hS0
    linarith
  · intro x hx
    rw [List.mem_map] at hx
    obtain ⟨i, hi, rfl⟩ := hx
    rw [List.mem_range] at hi
    have hiq : (i : ℤ) ≤ q := by omega
    have := mul_le_mul_of_nonneg_left hiq hS0.le
    have hc : q * S = S * q := mul_comm q S
    linarith
  · refine ⟨s + S * q, ?_, ?_⟩
    · rw [List.range_succ, List.map_append]
      simp only [List.map_cons, List.map_nil]
      rw [List.getLast?_concat]
      have hcast : ((q.toNat : ℕ) : ℤ) = q := by omega
      simp [hcast]
    · have hc : (q + 1) * S = q * S + S := by ring
      have hc2 : q * S = S * q := mul_comm q S
      linarith

/-- C1 witness: start 1, max 10, duration 10 — the plan `[1, 6]` is
strictly increasing, starts at 1, stays ≤ 10, and its last element 6
satisfies `10 < 6 + 5`. -/
theorem stepPlan_increasing_capped_witness :
    ∃ stride L, calculate_ramp_up_step 1 10 10 = .ok stride ∧ 1 ≤ stride ∧
      stepPlan 1 10 10 = .ok L ∧ L.head? = some 1 ∧ L.Pairwise (· < ·) ∧
      (∀ x ∈ L, x ≤ 10) ∧ ∃ last, L.getLast? = some last ∧ 10 < last + stride :=
  stepPlan_increasing_capped 1 10 10 (by norm_num) (by norm_num)
